import Mathlib

/-
Verification of the Aviator repository (Go): a shallow embedding of the
component/layout tree scanner, the view manager's render path and
filesystem-event handling, the artifact cache manager, the layout-wrapping
synthesis, the server-side entry generation, and the script-engine pool.

Conventions of the embedding:
  * Go maps keyed by strings are modelled as association lists
    (List (String × α)) with insert-overwrite / erase / lookup mirroring
    the Go map operations actually performed by the source.
  * Filesystem reads/writes are modelled by explicit finite maps passed in
    and out; an os.Remove of a missing file is an error, as in Go.
  * Fallible Go functions returning error become Except; a Go panic
    (nil-pointer dereference) is modelled as a distinguished error value.
  * Go stdlib path helpers (path/filepath) are modelled for slash-separated
    cleaned paths, the only shapes the program feeds them.
-/

namespace Aviator

/-- Association-list lookup, modelling a Go map read m[k]. -/
def mlookup {α : Type} : List (String × α) → String → Option α
  | [], _ => none
  | (k, v) :: rest, key => if k = key then some v else mlookup rest key

/-- Association-list insert-or-overwrite, modelling a Go map write m[k] = v. -/
def minsert {α : Type} : List (String × α) → String → α → List (String × α)
  | [], key, v => [(key, v)]
  | (k, w) :: rest, key, v =>
      if k = key then (k, v) :: rest else (k, w) :: minsert rest key v

/-- Association-list key removal, modelling Go delete(m, k). -/
def merase {α : Type} : List (String × α) → String → List (String × α)
  | [], _ => []
  | (k, w) :: rest, key => if k = key then merase rest key else (k, w) :: merase rest key

/-- Split a character list at every occurrence of the separator character,
keeping empty pieces, mirroring Go strings.Split with a one-character
separator. -/
def splitOnChar (sep : Char) : List Char → List (List Char)
  | [] => [[]]
  | c :: rest =>
    let r := splitOnChar sep rest
    if c == sep then [] :: r else (c :: r.headD []) :: r.tail

/-- Go strings.Split for a one-character separator, over String. -/
def strSplitOnChar (sep : Char) (s : String) : List String :=
  (splitOnChar sep s.data).map String.mk

/-- Decide whether the first character list is a prefix of the second. -/
def hasPrefixCh : List Char → List Char → Bool
  | [], _ => true
  | _ :: _, [] => false
  | a :: as, b :: bs => a == b && hasPrefixCh as bs

/-- Decide whether the pattern occurs as a contiguous sublist. -/
def hasSubCh (pat : List Char) : List Char → Bool
  | [] => hasPrefixCh pat []
  | c :: rest => hasPrefixCh pat (c :: rest) || hasSubCh pat rest

/-- Modelled from Go strings.Contains for a non-empty pattern. -/
def strContainsPat (s pat : String) : Bool :=
  hasSubCh pat.data s.data

/-- Modelled from Go strings.HasSuffix. -/
def strHasSuffix (s suffix : String) : Bool :=
  hasPrefixCh suffix.data.reverse s.data.reverse

/-- Drop the last n characters of a string. -/
def strDropRight (s : String) (n : Nat) : String :=
  String.mk (s.data.take (s.data.length - n))

/-- Modelled from Go path/filepath Base: last element of the path after
trailing separators are removed; "." for the empty path. -/
def goFilepathBase (s : String) : String :=
  if s.data = [] then "."
  else
    let kept := (s.data.reverse.dropWhile (fun c => c == '/')).reverse
    if kept = [] then "/"
    else String.mk (((splitOnChar '/' kept).getLastD []))

/-- Modelled from Go path/filepath Dir: everything but the last element of
the path; "." when the path holds no separator, "/" when only the root
remains. -/
def goFilepathDir (s : String) : String :=
  let afterDrop := s.data.reverse.dropWhile (fun c => c != '/')
  if afterDrop = [] then "."
  else
    let kept := afterDrop.dropWhile (fun c => c == '/')
    if kept = [] then "/" else String.mk kept.reverse

/-- Modelled from Go path/filepath Join on two already-clean elements:
empty elements are skipped, the rest are joined with one separator. -/
def goFilepathJoin (a b : String) : String :=
  if a = "" then b
  else if b = "" then a
  else a ++ "/" ++ b

/-- Modelled from Go path/filepath Ext for plain file names: the suffix of
the name starting at its final dot, empty when the name holds no dot. -/
def goFilepathExt (s : String) : String :=
  let parts := splitOnChar '.' s.data
  if parts.length = 1 then "" else String.mk ('.' :: parts.getLastD [])

/-!
## Component/layout tree scanner (builder/componentTree.go)
-/

/-- Layout record as built by componentTree.findLayouts: symbolic name,
absolute path, and the declared parent-layout name still to be resolved.
The object links (ParentTree, rootTree, ParentLayout) are represented
elsewhere; the per-directory scan only writes these three fields. -/
structure LayoutRec where
  Name : String
  Path : String
  parentLayoutName : String
  deriving Repr, DecidableEq

/-- Component record as built by componentTree.findComponents: file-stem
name, absolute path, and the declared layout name still to be resolved. -/
structure ComponentRec where
  Name : String
  Path : String
  layoutName : String
  deriving Repr, DecidableEq

/-- Modelled from svelteLayoutRegexp, the Go regular expression
backslash-plus-layout dot-star backslash-dot-svelte dollar, matched
unanchored at the left: the name ends in the svelte suffix and the
plus-layout token occurs somewhere before that suffix. -/
def svelteLayoutRegexpMatch (s : String) : Bool :=
  strHasSuffix s ".svelte" && strContainsPat (strDropRight s 7) "+layout"

/-- Modelled from svelteFileRegexp, dot-star backslash-dot-svelte dollar. -/
def svelteFileRegexpMatch (s : String) : Bool :=
  strHasSuffix s ".svelte"

/-- getLayoutWithParentName from componentTree.go: split on the at-sign;
without one the whole string is the name and the parent is empty. -/
def getLayoutWithParentName (name : String) : String × String :=
  let nameParts := strSplitOnChar '@' name
  if nameParts.length = 1 then (name, "")
  else (nameParts.getD 0 "", nameParts.getD 1 "")

/-- getLayoutInfo from componentTree.go: take the text before the first
dot, split on the dash; with no dash parse the whole stem, otherwise parse
only the second dash-separated part. -/
def getLayoutInfo (path : String) : String × String :=
  let fileName := (strSplitOnChar '.' path).getD 0 ""
  let nameParts := strSplitOnChar '-' fileName
  if nameParts.length = 1 then getLayoutWithParentName fileName
  else getLayoutWithParentName (nameParts.getD 1 "")

/-- getComponentWithLayoutName from componentTree.go: take the text before
the first dot and split it on the at-sign into component name and declared
layout name. -/
def getComponentWithLayoutName (path : String) : String × String :=
  let fileName := (strSplitOnChar '.' path).getD 0 ""
  let nameParts := strSplitOnChar '@' fileName
  if nameParts.length = 1 then (fileName, "")
  else (nameParts.getD 0 "", nameParts.getD 1 "")

/-- componentTree.findLayouts, modelled over the directory listing of plain
file names (directory entries that are directories are skipped by the Go
loop and are therefore omitted from the input). For every layout-pattern
file not already keyed in the map, the layout is inserted and its name is
appended to layoutsInDir; afterwards the function deletes every name in
layoutsInDir from the map (the code labels this step removal of stale
layouts that are no longer on the filesystem). -/
def findLayouts (dirPath : String) (files : List String)
    (layouts0 : List (String × LayoutRec)) : List (String × LayoutRec) :=
  let pass := files.foldl
    (fun (acc : List (String × LayoutRec) × List String) f =>
      if svelteLayoutRegexpMatch f = false then acc
      else
        let info := getLayoutInfo f
        if (mlookup acc.1 info.1).isSome then acc
        else
          (minsert acc.1 info.1
            { Name := info.1
              Path := goFilepathJoin dirPath f
              parentLayoutName := info.2 },
           acc.2 ++ [info.1]))
    (layouts0, [])
  pass.2.foldl (fun m n => merase m n) pass.1

/-- componentTree.findComponents, modelled over the same directory listing.
Layout-pattern files and non-svelte files are skipped; new component names
are inserted and collected in componentsInDir; afterwards the function
deletes every name in componentsInDir from the LAYOUTS map (the literal
delete target in the source), returning the updated component and layout
maps. -/
def findComponents (dirPath : String) (files : List String)
    (components0 : List (String × ComponentRec))
    (layouts0 : List (String × LayoutRec)) :
    List (String × ComponentRec) × List (String × LayoutRec) :=
  let pass := files.foldl
    (fun (acc : List (String × ComponentRec) × List String) f =>
      if svelteLayoutRegexpMatch f then acc
      else if svelteFileRegexpMatch f = false then acc
      else
        let info := getComponentWithLayoutName f
        if (mlookup acc.1 info.1).isSome then acc
        else
          (minsert acc.1 info.1
            { Name := info.1
              Path := goFilepathJoin dirPath f
              layoutName := info.2 },
           acc.2 ++ [info.1]))
    (components0, [])
  (pass.1, pass.2.foldl (fun m n => merase m n) layouts0)

/-- Map phases of componentTree.ReScan on one directory node: findLayouts
first, then findComponents over the same listing. The intervening
resolveLayoutParents / resolveComponentLayouts passes only rewrite fields
of already-stored records and never add or remove map entries, and
findChildTrees only touches the child-node map, so the membership content
of the component and layout maps after ReScan is exactly this. -/
def reScanMaps (dirPath : String) (files : List String)
    (components0 : List (String × ComponentRec))
    (layouts0 : List (String × LayoutRec)) :
    List (String × ComponentRec) × List (String × LayoutRec) :=
  let layouts1 := findLayouts dirPath files layouts0
  findComponents dirPath files components0 layouts1

/-- Directory node of the component tree, reduced to the fields read by
RescanDir: the absolute directory path and the child nodes. -/
inductive CTreeNode where
  | mk (path : String) (children : List CTreeNode)
  deriving Repr

/-- Absolute path held by a tree node. -/
def CTreeNode.path : CTreeNode → String
  | .mk p _ => p

mutual

/-- Paths of a node and of all of its descendants, the key set of
componentTree.GetAllDescendentTrees. -/
def descendantPaths : CTreeNode → List String
  | .mk p cs => p :: descendantPathsList cs

/-- Paths of all nodes in a forest, helper for descendantPaths. -/
def descendantPathsList : List CTreeNode → List String
  | [] => []
  | t :: ts => descendantPaths t ++ descendantPathsList ts

end

/-- componentTree.RescanDir: compute the parent directory of the supplied
path, look it up among all descendant node paths, and re-run ReScan on
that node (the per-node scan itself is modelled by reScanMaps; its result
is not needed here, so a successful call reports the rescanned node
path). A missing parent directory yields the literal error message of the
source, stray trailing quote included. -/
def RescanDir (t : CTreeNode) (path : String) : Except String String :=
  let parentDir := goFilepathDir path
  if (descendantPaths t).contains parentDir then Except.ok parentDir
  else
    Except.error
      ("unable to add dir at path \"" ++ parentDir ++
        "\" because parent directory was not present in component tree\x27")

/-- ViewManager.handleRemoveEvent, rescan half: the handler first
invalidates the event path in the ssr and browser caches with both errors
discarded (cache invalidation is modelled in the cache section below and
does not influence this value), then returns
tree.RescanDir(filepath.Base(event.Name)). -/
def handleRemoveEventRescan (t : CTreeNode) (eventName : String) : Except String String :=
  RescanDir t (goFilepathBase eventName)

/-!
## Layout-wrapping synthesis (builder/commonPlugins.go createLayoutWrappedView)
-/

/-- View fields read by createLayoutWrappedView: its unique identifier and
its path relative to the views directory. The applicable layout chain is
passed alongside, modelling the read of view.ApplicableLayoutViews, whose
lower indices are the layouts closer to the view. -/
structure ViewLite where
  UniqueName : String
  RelPath : String
  deriving Repr, DecidableEq

/-- Go strings.Join. -/
def strJoinSep (sep : String) : List String → String
  | [] => ""
  | [x] => x
  | x :: y :: rest => x ++ sep ++ strJoinSep sep (y :: rest)

/-- Concatenation of a list of strings, Go strings.Join with empty
separator. -/
def strJoinAll (l : List String) : String :=
  strJoinSep "" l

/-- wrappedImportStatementFmt applied to a name and a path. -/
def wrappedImportStatement (name rel : String) : String :=
  "import " ++ name ++ " from \"" ++ rel ++ "\""

/-- Opening dynamic-component tag emitted for one layout by
createLayoutWrappedView. -/
def layoutStartTag (name : String) : String :=
  "<svelte:component this=\x7b" ++ name ++ "\x7d \x7b...($$props || \x7b\x7d)\x7d>"

/-- Self-closing dynamic-component tag emitted for the target component. -/
def componentSelfTag (name : String) : String :=
  "<svelte:component this=\x7b" ++ name ++ "\x7d \x7b...($$props || \x7b\x7d)\x7d/>"

/-- createLayoutWrappedView from builder/commonPlugins.go: walk the
applicable layouts in order (nearest first), appending one import
statement and one opening tag per layout while prepending one closing
tag; then append the import of the target component, join the opening
tags, the self-closing component tag and the closing tags, and prefix the
script block holding the imports. -/
def createLayoutWrappedView (view : ViewLite) (layouts : List ViewLite) : String :=
  let pass := layouts.foldl
    (fun (acc : List String × List String × List String) l =>
      (acc.1 ++ [wrappedImportStatement l.UniqueName l.RelPath],
       acc.2.1 ++ [layoutStartTag l.UniqueName],
       ["</svelte:component>"] ++ acc.2.2))
    ([], [], [])
  let importStatements := pass.1 ++ [wrappedImportStatement view.UniqueName view.RelPath]
  let wrappedComponentStr :=
    strJoinAll pass.2.1 ++ componentSelfTag view.UniqueName ++ strJoinAll pass.2.2
  let allImportStatements := strJoinSep "\n" importStatements
  "<script>\n" ++ allImportStatements ++ "\n</script>\n" ++ wrappedComponentStr

/-!
## Artifact cache manager (cache manager source file, cacheItem / cacheManager)

Pointers between cache items are modelled as the item's path used as a key
into the manager's map: every pointer the source stores (AddDependent, the
startup re-linking) is to an item present in that map under its own path,
and no map key is removed while a cascade is running, so the key faithfully
stands for the pointer within each modelled operation. A Go nil pointer is
Option.none; calling a method on it is the distinguished nilDeref error.
-/

/-- Cache item, the fields of cacheItem relevant to the modelled
operations. The dependents field is the Go map from dependent path to
pointer: none models a nil pointer left by metadata loading, some q a
pointer to the item stored under key q. -/
structure CItem where
  path : String
  cacheFilePath : String
  metadataFilePath : String
  pathContentHash : String
  content : String
  pendingWrite : Bool
  markedForDeletion : Bool
  dependents : List (String × Option String)
  deriving Repr, DecidableEq

/-- Errors of the modelled cache operations: a Go panic from a nil
dereference, an os.Remove of a file absent from the modelled disk, and
exhaustion of the recursion fuel that makes the unbounded Go recursion a
total Lean function. -/
inductive CErr where
  | nilDeref
  | removeMissing
  | outOfFuel
  deriving Repr, DecidableEq

/-- State of one cacheManager: its item map, the set of cache-directory
file paths currently on disk, and the pending dependency edges recorded by
DependsOn (flattened from the Go map of slices; Finished visits every
pair, so only the multiset of edges matters). -/
structure CMState where
  caches : List (String × CItem)
  fs : List String
  deps : List (String × String)
  deriving Repr, DecidableEq

/-- Point update of a map entry, modelling a field write through a Go map
pointer: keys are unchanged. -/
def mupdate {α : Type} (m : List (String × α)) (key : String) (f : α → α) : List (String × α) :=
  m.map (fun kv => (kv.1, if kv.1 = key then f kv.2 else kv.2))

/-- Membership of a file path on the modelled disk. -/
def fsContains : List String → String → Bool
  | [], _ => false
  | y :: rest, x => if y = x then true else fsContains rest x

/-- Removal of a file path from the modelled disk, os.Remove. -/
def fsRemoveAll : List String → String → List String
  | [], _ => []
  | y :: rest, x => if y = x then fsRemoveAll rest x else y :: fsRemoveAll rest x

/-- Marking one cache item for deletion through the map. -/
def markForDeletion (st : CMState) (p : String) : CMState :=
  { st with caches := mupdate st.caches p (fun j => { j with markedForDeletion := true }) }

/-- Deletion of one on-disk file. -/
def removeFile (st : CMState) (x : String) : CMState :=
  { st with fs := fsRemoveAll st.fs x }

/-- Iteration of cacheItem.Invalidate over the dependents map of one
item: each stored pointer is followed and invalidated in turn by the
supplied one-item invalidator; a nil pointer stored in the dependents map
makes the Go code panic, the modelled nilDeref. -/
def runDeps (f : CMState → String → Except CErr CMState) :
    CMState → List (String × Option String) → Except CErr CMState
  | st, [] => Except.ok st
  | _, (_, none) :: _ => Except.error CErr.nilDeref
  | st, (_, some q) :: rest =>
    match f st q with
    | Except.error e => Except.error e
    | Except.ok st1 => runDeps f st1 rest

/-- cacheItem.Invalidate: mark the item for deletion, delete its cache
file and its metadata file from disk (an absent file is an os.Remove
error, which aborts the cascade exactly as the early return does), then
recursively invalidate every dependent through its stored pointer. The
fuel bounds the recursion depth and makes the unbounded Go recursion a
total Lean function; every claim about it quantifies over the fuel. -/
def cacheItemInvalidate : Nat → CMState → String → Except CErr CMState
  | 0, _, _ => Except.error CErr.outOfFuel
  | fuel + 1, st, p =>
    match mlookup st.caches p with
    | none => Except.error CErr.nilDeref
    | some it =>
      if fsContains (markForDeletion st p).fs it.cacheFilePath = false then
        Except.error CErr.removeMissing
      else if
          fsContains (removeFile (markForDeletion st p) it.cacheFilePath).fs
            it.metadataFilePath = false then
        Except.error CErr.removeMissing
      else
        runDeps (cacheItemInvalidate fuel)
          (removeFile (removeFile (markForDeletion st p) it.cacheFilePath) it.metadataFilePath)
          it.dependents

/-- cacheManager.Invalidate: a path with no cache entry is ignored and nil
is returned with the state untouched; otherwise the item cascade runs and
the path is finally deleted from the manager map. -/
def cacheManagerInvalidate (fuel : Nat) (st : CMState) (path : String) : Except CErr CMState :=
  match mlookup st.caches path with
  | none => Except.ok st
  | some _ =>
    match cacheItemInvalidate fuel st path with
    | Except.error e => Except.error e
    | Except.ok st' => Except.ok { st' with caches := merase st'.caches path }

/-- cacheItem.AddDependent: store the dependant under its path, clear the
deletion mark, flag a pending write. -/
def cacheItemAddDependent (it : CItem) (dependantPath : String) : CItem :=
  { it with
      dependents := minsert it.dependents dependantPath (some dependantPath)
      markedForDeletion := false
      pendingWrite := true }

/-- cacheManager.DependsOn: record one pending edge from pathA to pathB. -/
def cacheManagerDependsOn (st : CMState) (pathA pathB : String) : CMState :=
  { st with deps := st.deps ++ [(pathA, pathB)] }

/-- Edge loop of cacheManager.Finished: for every recorded edge, look up
the depended-on item cacheB and the depender cacheA; a missing depender is
skipped, but AddDependent is then invoked on cacheB without a nil check,
so a cached depender with an uncached depended-on path panics. -/
def finishedEdges (caches : List (String × CItem)) :
    List (String × String) → Except CErr (List (String × CItem))
  | [] => Except.ok caches
  | (a, b) :: rest =>
    match mlookup caches a with
    | none => finishedEdges caches rest
    | some _ =>
      match mlookup caches b with
      | none => Except.error CErr.nilDeref
      | some _ => finishedEdges (mupdate caches b (fun j => cacheItemAddDependent j a)) rest

/-- cacheManager.Finished: apply every pending dependency edge, then clear
the pending list. -/
def cacheManagerFinished (st : CMState) : Except CErr CMState :=
  match finishedEdges st.caches st.deps with
  | Except.error e => Except.error e
  | Except.ok caches1 => Except.ok { st with caches := caches1, deps := [] }

/-!
## Cache startup loading (cacheItem.readMetadataFile, IsValid, readCacheDir)
-/

/-- Parsed content of one metadata file. -/
structure CacheItemMetadata where
  Path : String
  Dependents : List String
  PathContentHash : String
  deriving Repr, DecidableEq

/-- cacheItem.pathFileHash: hash of the current content of the source
file; the empty string when the file cannot be read. The digest function
is a parameter, as the property at stake is independent of SHA-1. -/
def pathFileHash (sha1hex : String → String) (srcFs : List (String × String)) (path : String) :
    String :=
  match mlookup srcFs path with
  | none => ""
  | some content => sha1hex content

/-- cacheItem.IsValid: compare a fresh hash of the source file with the
stored pathContentHash field. -/
def cacheItemIsValid (sha1hex : String → String) (srcFs : List (String × String)) (it : CItem) :
    Bool :=
  pathFileHash sha1hex srcFs it.path == it.pathContentHash

/-- newEmptyCacheItem: the zero item carrying only its two on-disk file
paths. -/
def newEmptyCacheItem (cacheFilePath metadataFilePath : String) : CItem :=
  { path := ""
    cacheFilePath := cacheFilePath
    metadataFilePath := metadataFilePath
    pathContentHash := ""
    content := ""
    pendingWrite := false
    markedForDeletion := false
    dependents := [] }

/-- cacheItem.readMetadataFile: adopt the recorded source path, then set
pathContentHash by RE-HASHING the current source file (the recorded
PathContentHash field of the metadata is not consulted), and pre-create a
nil entry per recorded dependent path. -/
def readMetadataFile (sha1hex : String → String) (srcFs : List (String × String))
    (it : CItem) (metadata : CacheItemMetadata) : CItem :=
  { it with
      path := metadata.Path
      pathContentHash := pathFileHash sha1hex srcFs metadata.Path
      dependents :=
        metadata.Dependents.foldl (fun acc d => minsert acc d (none : Option String)) it.dependents }

/-- Loading loop of cacheManager.readCacheDir: one recovered entry is the
hash-derived base name, the raw cached content, and the parsed metadata;
each becomes an item stored under its recorded source path. -/
def readCacheDirLoad (sha1hex : String → String) (srcFs : List (String × String))
    (cacheDir : String) (entries : List (String × String × CacheItemMetadata)) :
    List (String × CItem) :=
  entries.foldl
    (fun caches e =>
      let cachePath := goFilepathJoin cacheDir (e.1 ++ ".cache")
      let metadataPath := goFilepathJoin cacheDir (e.1 ++ ".metadata")
      let it0 := newEmptyCacheItem cachePath metadataPath
      let it1 : CItem := { it0 with content := e.2.1 }
      let it2 := readMetadataFile sha1hex srcFs it1 e.2.2
      minsert caches it2.path it2)
    []

/-- Re-linking pass of readCacheDir: every recorded dependent path that
names a recovered item gets its pointer set; the rest stay nil. -/
def readCacheDirLink (caches : List (String × CItem)) : List (String × CItem) :=
  caches.map
    (fun kv =>
      (kv.1,
        { kv.2 with
            dependents := kv.2.dependents.map
              (fun d => if (mlookup caches d.1).isSome then (d.1, some d.1) else d) }))

/-- Validation pass of readCacheDir: walk the recovered items; a stale one
is invalidated (cascading) and queued for removal from the map. -/
def validateLoop (sha1hex : String → String) (srcFs : List (String × String)) (fuel : Nat) :
    List String → CMState → List String → Except CErr (CMState × List String)
  | [], st, toRemove => Except.ok (st, toRemove)
  | k :: rest, st, toRemove =>
    match mlookup st.caches k with
    | none => validateLoop sha1hex srcFs fuel rest st toRemove
    | some it =>
      if cacheItemIsValid sha1hex srcFs it then validateLoop sha1hex srcFs fuel rest st toRemove
      else
        match cacheItemInvalidate fuel st k with
        | Except.error e => Except.error e
        | Except.ok st' => validateLoop sha1hex srcFs fuel rest st' (toRemove ++ [k])

/-- cacheManager.readCacheDir: load every recovered entry, re-link the
dependent pointers, freshness-check every item, and drop the stale ones
from the map. -/
def readCacheDir (sha1hex : String → String) (srcFs : List (String × String))
    (cacheDir : String) (fuel : Nat) (entries : List (String × String × CacheItemMetadata))
    (fs0 : List String) : Except CErr CMState :=
  let caches1 := readCacheDirLink (readCacheDirLoad sha1hex srcFs cacheDir entries)
  let st0 : CMState := { caches := caches1, fs := fs0, deps := [] }
  match validateLoop sha1hex srcFs fuel (caches1.map (fun kv => kv.1)) st0 [] with
  | Except.error e => Except.error e
  | Except.ok stpair =>
    Except.ok { stpair.1 with caches := stpair.2.foldl (fun m n => merase m n) stpair.1.caches }

/-- Concrete stand-in digest used by closed evaluation theorems. -/
def demoHash (s : String) : String :=
  "sha-" ++ s

/-- Concrete cache item used by closed witnesses. -/
def demoItem : CItem :=
  { path := "/views/a.svelte"
    cacheFilePath := "/cache/ssr/h1.cache"
    metadataFilePath := "/cache/ssr/h1.metadata"
    pathContentHash := ""
    content := "compiled-a"
    pendingWrite := false
    markedForDeletion := false
    dependents := [] }

/-!
## Invalidation cascade: reachability and the claim C5 contract
-/

/-- Dependency edge recorded in a live item map: the item stored under p
holds a pointer to the item stored under q. -/
def dependsEdge (caches : List (String × CItem)) (p q : String) : Prop :=
  ∃ it k, mlookup caches p = some it ∧ (k, some q) ∈ it.dependents

/-- Transitive closure of the recorded dependent pointers: the items the
cacheItem.Invalidate cascade visits below a given root. -/
inductive DependsReach (caches : List (String × CItem)) : String → String → Prop
  | direct {p q : String} : dependsEdge caches p q → DependsReach caches p q
  | step {p q r : String} :
      dependsEdge caches p q → DependsReach caches q r → DependsReach caches p r

/-- Evolution of the manager state along an invalidation cascade: the key
set is unchanged, every item keeps its identity fields and its dependents,
deletion marks are never cleared, and the disk only loses files. -/
structure StateEvolves (st st' : CMState) : Prop where
  keysSome : ∀ q it, mlookup st.caches q = some it →
      ∃ it', mlookup st'.caches q = some it' ∧ it'.path = it.path ∧
        it'.cacheFilePath = it.cacheFilePath ∧ it'.metadataFilePath = it.metadataFilePath ∧
        it'.dependents = it.dependents ∧
        (it.markedForDeletion = true → it'.markedForDeletion = true)
  keysNone : ∀ q, mlookup st.caches q = none → mlookup st'.caches q = none
  fsShrinks : ∀ f, fsContains st'.fs f = true → fsContains st.fs f = true

/-- The invalidation postcondition at one path, relative to the starting
and the final state: the item recorded at that path before the cascade has
both of its on-disk files gone, and whatever the final map holds at the
path carries the deletion mark. -/
def invalidatedAt (st0 stf : CMState) (q : String) : Prop :=
  (∀ it, mlookup st0.caches q = some it →
      fsContains stf.fs it.cacheFilePath = false ∧
        fsContains stf.fs it.metadataFilePath = false) ∧
  (∀ it', mlookup stf.caches q = some it' → it'.markedForDeletion = true)

/-- Concrete depender item used by the claim C5 witness. -/
def demoItemA : CItem :=
  { path := "/views/a.svelte"
    cacheFilePath := "/cs/ha.cache"
    metadataFilePath := "/cs/ha.metadata"
    pathContentHash := ""
    content := "ca"
    pendingWrite := false
    markedForDeletion := false
    dependents := [("/views/b.svelte", some "/views/b.svelte")] }

/-- Concrete dependent item used by the claim C5 witness. -/
def demoItemB : CItem :=
  { path := "/views/b.svelte"
    cacheFilePath := "/cs/hb.cache"
    metadataFilePath := "/cs/hb.metadata"
    pathContentHash := ""
    content := "cb"
    pendingWrite := false
    markedForDeletion := false
    dependents := [] }

/-- Concrete manager state for the claim C5 witness: item a with dependent
b, all four files on disk. -/
def demoInvSt : CMState :=
  { caches := [("/views/a.svelte", demoItemA), ("/views/b.svelte", demoItemB)]
    fs := ["/cs/ha.cache", "/cs/ha.metadata", "/cs/hb.cache", "/cs/hb.metadata"]
    deps := [] }

/-- State left by invalidating a in the claim C5 witness: a is gone from
the map, b stays but is marked, the disk is empty. -/
def demoInvStAfter : CMState :=
  { caches := [("/views/b.svelte", { demoItemB with markedForDeletion := true })]
    fs := []
    deps := [] }

/-!
## Server-side entry generation (SSRBuilder.ssrPlugin and ssrHelperTemplate)
-/

/-- View fields read by the server-side entry generation. -/
structure ViewE where
  WrappedUniqueName : String
  IsEntrypoint : Bool
  deriving Repr, DecidableEq

/-- Modelled from the spec: the entry-point-filtering SSRBuilder.ssrPlugin
invoked by the current view manager (DevBuild over the supplied views) is
not present in the source tree, which holds only an older SSRBuilder
iteration that the current view manager cannot construct; the spec states
that the plugin filters the supplied views to entry points only before
rendering the entry template over them. The loop-with-continue is the
stated filter. -/
def ssrPluginViewList (views : List ViewE) : List ViewE :=
  views.foldl (fun acc v => if v.IsEntrypoint = false then acc else acc ++ [v]) []

/-- Import emitted by one iteration of the first range of
ssrHelperTemplate (template file in the repo): a leading newline from the
trimmed range marker, then the import of the wrapped module. -/
def ssrImportLine (v : ViewE) : String :=
  "\nimport " ++ v.WrappedUniqueName ++ " from \"" ++ v.WrappedUniqueName ++ ".svelte\""

/-- Import section of the rendered ssrHelperTemplate over the template
data view list: one import per listed view, in order. The remainder of
the template (the renderHTML and createView helpers, the per-view
registration range over the same list, and the exported render function)
mentions no view outside the same list. -/
def ssrTemplateImports (vs : List ViewE) : String :=
  strJoinAll (vs.map ssrImportLine)

/-- Import section of the synthetic server entry produced by the plugin:
the template rendered over the filtered view list. -/
def ssrEntryImports (views : List ViewE) : String :=
  ssrTemplateImports (ssrPluginViewList views)

/-- Entry-point view used by closed witnesses. -/
def demoViewEntry : ViewE :=
  { WrappedUniqueName := "__AviatorWrapped_Index", IsEntrypoint := true }

/-- Layout view (never an entry point) used by closed witnesses. -/
def demoViewLayout : ViewE :=
  { WrappedUniqueName := "__AviatorWrapped_Layout", IsEntrypoint := false }

/-!
## Render path (ViewManager.Render)
-/

/-- View fields read by Render. -/
structure ViewR where
  WrappedUniqueName : String
  JSImports : List String
  CSSImports : List String
  deriving Repr, DecidableEq

/-- ssrData record parsed from the render output and handed to the HTML
template. -/
structure SsrData where
  Head : String
  Body : String
  BundledCSS : String
  Lang : String
  deriving Repr, DecidableEq

/-- View-manager state read by Render: the view map keyed by
root-relative path, the names present in the static-asset map, the
configured asset route and the document language. -/
structure RenderEnv where
  views : List (String × ViewR)
  staticContent : List String
  staticAssetsRoute : String
  htmlLang : String
  deriving Repr, DecidableEq

/-- Reserved name of the base stylesheet produced by the server-side
pass. -/
def baseCSSStyleName : String :=
  "__aviator__base_style.css"

/-- ViewManager.createPropsScriptElem: the inline deferred script element
whose text content is the serialized properties. -/
def createPropsScriptElem (props : String) : String :=
  "<script id=\"__aviator_props\" type=\"text/template\" defer>" ++ props ++ "</script>\n"

/-- ViewManager.createJSImportTags: one module script tag per asset,
rooted at the static asset route. -/
def createJSImportTags (route : String) (assetImports : List String) : String :=
  assetImports.foldl
    (fun output rawPath =>
      output ++
        ("<script type=\"module\" src=\"" ++ goFilepathJoin route rawPath ++
          "\" defer></script>\n"))
    ""

/-- ViewManager.createCSSImportTag: one stylesheet link. -/
def createCSSImportTag (route path : String) : String :=
  "<link href=\"" ++ goFilepathJoin route path ++ "\" rel=\"stylesheet\">\n"

/-- ViewManager.createCSSImportTags: one stylesheet link per asset. -/
def createCSSImportTags (route : String) (assetImports : List String) : String :=
  assetImports.foldl (fun output rawPath => output ++ createCSSImportTag route rawPath) ""

/-- Go percent-q quoting of a name without escape-worthy characters. -/
def goQuote (s : String) : String :=
  "\"" ++ s ++ "\""

/-- Render expression handed to the pooled engine: the installed bundle's
render entry point applied to the wrapped unique name and the serialized
properties. -/
def mkRenderExpr (wrappedName jsonValue : String) : String :=
  "; __aviator__.render(" ++ goQuote wrappedName ++ ", " ++ jsonValue ++ ", \x7b\x7d)"

/-- Serialization step of Render: nil props become the literal empty JSON
object text, otherwise the marshalling result is adopted and a marshal
failure is wrapped in the error message of the source. The caller-side
json.Marshal outcome is the input. -/
def serializeProps (props : Option (Except String String)) : Except String String :=
  match props with
  | none => Except.ok "\x7b\x7d"
  | some (Except.ok j) => Except.ok j
  | some (Except.error e) => Except.error ("failed to json serialize props " ++ e)

/-- ViewManager.Render: look up the view by root-relative path (absent is
a hard error naming the path), serialize props, evaluate the render
expression on a pooled engine, parse the ssrData record, append to its
head markup the module script tags, the base stylesheet link when that
asset exists, the stylesheet links and the inline props script element,
set the language, and execute the HTML document template. The engine
evaluation, the JSON decode and the template execution are the modelled
effect parameters. -/
def Render (env : RenderEnv) (evalFn : String → String → Except String String)
    (parseSsr : String → Except String SsrData)
    (execTemplate : SsrData → Except String String)
    (viewPath : String) (props : Option (Except String String)) : Except String String :=
  match mlookup env.views viewPath with
  | none => Except.error ("view does not exist in path " ++ viewPath)
  | some view =>
    match serializeProps props with
    | Except.error e => Except.error e
    | Except.ok jsonValue =>
      match evalFn "runtime_renderer" (mkRenderExpr view.WrappedUniqueName jsonValue) with
      | Except.error e => Except.error e
      | Except.ok renderOutputStr =>
        match parseSsr renderOutputStr with
        | Except.error e => Except.error e
        | Except.ok d =>
          let head1 := d.Head ++ "\n" ++ createJSImportTags env.staticAssetsRoute view.JSImports
          let head2 :=
            if fsContains env.staticContent baseCSSStyleName then
              head1 ++ createCSSImportTag env.staticAssetsRoute baseCSSStyleName
            else head1
          let head3 := head2 ++ createCSSImportTags env.staticAssetsRoute view.CSSImports ++
            createPropsScriptElem jsonValue
          execTemplate { d with Head := head3, Lang := env.htmlLang }

/-- View used by the render witnesses. -/
def demoViewR : ViewR :=
  { WrappedUniqueName := "__AviatorWrapped_Index"
    JSImports := ["Index.js"]
    CSSImports := ["Index.css"] }

/-- View-manager state used by the render witnesses. -/
def demoRenderEnv : RenderEnv :=
  { views := [("Index.svelte", demoViewR)]
    staticContent := ["__aviator__base_style.css"]
    staticAssetsRoute := "/assets"
    htmlLang := "en" }

/-- ssrData record produced by the demo parse. -/
def demoSsr : SsrData :=
  { Head := "<title>t</title>", Body := "<div>b</div>", BundledCSS := "", Lang := "" }

/-- Demo engine evaluation: always succeeds. -/
def demoEvalFn (path expr : String) : Except String String :=
  Except.ok ("rendered:" ++ path ++ ":" ++ expr)

/-- Demo JSON decode of the render output. -/
def demoParseSsr (out : String) : Except String SsrData :=
  if out = "" then Except.error "empty" else Except.ok demoSsr

/-- Demo HTML template execution. -/
def demoExecTemplate (d : SsrData) : Except String String :=
  Except.ok (d.Head ++ d.Body)

/-!
## Script-engine pool (js package, gojaVMPool.InitializationScript)
-/

/-- One pooled interpreter instance, carrying the scripts it has
evaluated: the globals a script installs are visible to every later
evaluation on the same instance. -/
structure GojaVMState where
  scripts : List (String × String)
  deriving Repr, DecidableEq

/-- The fixed-size pool: its configured size and the idle instances
currently available for acquisition. The pool constructor creates no
instance eagerly; the underlying resource pool constructs instances
lazily up to the configured size. -/
structure GojaPool where
  poolSize : Nat
  idle : List GojaVMState
  deriving Repr, DecidableEq

/-- gojaVM.Eval: run a script on one instance; success installs the
script into the instance (its globals persist), failure reports the
engine error. Whether the engine accepts the source is the jsOk
parameter. -/
def gojaEval (jsOk : String → Bool) (vm : GojaVMState) (path source : String) :
    Except String GojaVMState :=
  if jsOk source then Except.ok { scripts := vm.scripts ++ [(path, source)] }
  else Except.error "js eval error"

/-- The acquisition loop of gojaVMPool.InitializationScript from a
quiescent pool: poolSize acquisitions hand out every idle instance and
construct the missing ones, so all pool instances are held at once and
none is available to other callers while the loop runs. -/
def acquireAllVMs (pool : GojaPool) : List GojaVMState :=
  pool.idle ++ List.replicate (pool.poolSize - pool.idle.length) { scripts := [] }

/-- The evaluation loop of gojaVMPool.InitializationScript: run the
script on every acquired instance in order; an error returns immediately
(releasing nothing, as in the source). -/
def evalOnAll (jsOk : String → Bool) (path source : String) :
    List GojaVMState → Except String (List GojaVMState)
  | [] => Except.ok []
  | vm :: rest =>
    match gojaEval jsOk vm path source with
    | Except.error e => Except.error e
    | Except.ok vm1 =>
      match evalOnAll jsOk path source rest with
      | Except.error e => Except.error e
      | Except.ok rest1 => Except.ok (vm1 :: rest1)

/-- gojaVMPool.InitializationScript from a quiescent pool: acquire all
poolSize instances, evaluate the script on each acquired instance, then
release them all; only after every instance has evaluated the script does
any instance become available again. -/
def poolInitializationScript (jsOk : String → Bool) (pool : GojaPool) (path source : String) :
    Except String GojaPool :=
  match evalOnAll jsOk path source (acquireAllVMs pool) with
  | Except.error e => Except.error e
  | Except.ok vms => Except.ok { poolSize := pool.poolSize, idle := vms }

/-- gojaVMPool.Eval: acquire one instance, evaluate the expression on it,
release it. The instance that serves the call is one of the pooled
instances. -/
def poolEval (jsOk : String → Bool) (pool : GojaPool) (path expr : String) :
    Except String (GojaPool × GojaVMState) :=
  match pool.idle with
  | [] => Except.error "acquire would block"
  | vm :: rest =>
    match gojaEval jsOk vm path expr with
    | Except.error e => Except.error e
    | Except.ok vm1 => Except.ok ({ poolSize := pool.poolSize, idle := rest ++ [vm1] }, vm1)

/-!
## Claim theorems C1, C2, C3
-/

/-- Claim C1: the spec states that a Remove (or Rename) event on path p
invalidates p in both caches and then rescans the tree node whose
directory is the parent directory of p, succeeding whenever that parent
directory is present in the component tree. The code instead hands
filepath.Base(p) to RescanDir, whose own filepath.Dir then produces ".",
never the real parent: with the tree rooted at "/views" (which is the
parent directory of the removed file and is present in the tree), the
handler returns the lookup error instead of rescanning "/views". -/
theorem claim_C1_remove_event_rescans_wrong_dir :
    handleRemoveEventRescan (CTreeNode.mk "/views" []) "/views/Index.svelte" =
      Except.error
        ("unable to add dir at path \".\" because parent directory was not present in component tree\x27")
      ∧ (descendantPaths (CTreeNode.mk "/views" [])).contains
          (goFilepathDir "/views/Index.svelte") = true := by
  exact ⟨rfl, by decide⟩

/-- Claim C2: the spec states that after ReScan over a directory listing,
the layout map holds an entry for every layout-pattern file at that
level; in particular a first scan of a directory containing
+layout.svelte leaves a layout named "+layout" in the map. In the code,
findLayouts collects exactly the newly inserted names in layoutsInDir and
then deletes those same names from the map, so a first scan of such a
directory ends with an empty layout map. -/
theorem claim_C2_first_scan_drops_discovered_layout :
    reScanMaps "/views" ["+layout.svelte"] [] [] = ([], [])
      ∧ mlookup (findLayouts "/views" ["+layout.svelte"] []) "+layout" = none
      ∧ svelteLayoutRegexpMatch "+layout.svelte" = true := by
  refine ⟨by decide, by decide, by decide⟩

/-- Claim C3: the spec states that the synthesized layout-wrapped source
nests the target component innermost, with the nearest layout immediately
enclosing it and the most distant layout outermost. The code walks the
nearest-first layout chain appending opening tags in that order, so the
NEAREST layout becomes the outermost tag and the most distant layout
immediately encloses the component: for the chain [NearLayout, FarLayout]
the emitted markup opens NearLayout first. -/
theorem claim_C3_nearest_layout_emitted_outermost :
    createLayoutWrappedView (ViewLite.mk "Tiger" "near/Tiger.svelte")
        [ViewLite.mk "NearLayout" "near/+layout.svelte",
         ViewLite.mk "FarLayout" "+layout.svelte"] =
      "<script>\nimport NearLayout from \"near/+layout.svelte\"\n" ++
        "import FarLayout from \"+layout.svelte\"\n" ++
        "import Tiger from \"near/Tiger.svelte\"\n</script>\n" ++
        layoutStartTag "NearLayout" ++ layoutStartTag "FarLayout" ++
        componentSelfTag "Tiger" ++
        "</svelte:component></svelte:component>" := by
  rfl

/-- Claim C4: the spec states that at cache-manager startup every
recovered entry whose source file's current hash differs from the hash
recorded in its metadata (a vanished source included) is invalidated and
dropped before the manager is ready. In the code, readMetadataFile
overwrites the in-memory freshness hash with a fresh hash of the current
file instead of the recorded one, so IsValid compares the current hash
with itself and never fails: here the recorded hash is "sha-old", the
source file no longer exists (current hash ""), and the entry is
nonetheless retained in the ready cache map with the disk untouched. -/
theorem claim_C4_startup_freshness_check_vacuous :
    (readCacheDir demoHash [] "/cache/ssr" 5
        [("abc123", "compiled-js", CacheItemMetadata.mk "/views/Index.svelte" [] "sha-old")]
        ["/cache/ssr/abc123.cache", "/cache/ssr/abc123.metadata"]).toOption.map
      (fun st => ((mlookup st.caches "/views/Index.svelte").isSome, st.fs)) =
      some (true, ["/cache/ssr/abc123.cache", "/cache/ssr/abc123.metadata"])
    ∧ pathFileHash demoHash [] "/views/Index.svelte" = "" := by
  exact ⟨rfl, rfl⟩

/-- Lookup after a point update: only the updated key changes, by the
update function. -/
theorem mlookup_mupdate {α : Type} (m : List (String × α)) (key q : String) (f : α → α) :
    mlookup (mupdate m key f) q = if q = key then (mlookup m q).map f else mlookup m q := by
  induction m with
  | nil => simp [mlookup, mupdate]
  | cons hd tl ih =>
    obtain ⟨k, v⟩ := hd
    by_cases hkq : k = q <;> by_cases hqkey : q = key <;>
      simp_all [mlookup, mupdate]

/-- Lookup after a key removal: the removed key reads none, others are
unchanged. -/
theorem mlookup_merase {α : Type} (m : List (String × α)) (key q : String) :
    mlookup (merase m key) q = if q = key then none else mlookup m q := by
  induction m with
  | nil => simp [mlookup, merase]
  | cons hd tl ih =>
    obtain ⟨k, v⟩ := hd
    by_cases hkq : k = q <;> by_cases hqkey : q = key <;> by_cases hkkey : k = key <;>
      simp_all [mlookup, merase]

/-- Edges whose depender is not cached leave the map untouched. -/
theorem finishedEdges_all_dropped (deps : List (String × String))
    (caches : List (String × CItem)) (h : ∀ e ∈ deps, mlookup caches e.1 = none) :
    finishedEdges caches deps = Except.ok caches := by
  induction deps with
  | nil => rfl
  | cons hd rest ih =>
    have hhd : mlookup caches hd.1 = none := h hd (List.mem_cons_self hd rest)
    obtain ⟨x, y⟩ := hd
    simp only [finishedEdges]
    rw [hhd]
    exact ih (fun e he => h e (List.mem_cons_of_mem _ he))

/-- An edge with a cached depender and an uncached depended-on path makes
the edge loop hit the modelled nil dereference. -/
theorem finishedEdges_error_of_bad_edge (deps : List (String × String))
    (caches : List (String × CItem)) (a b : String) (hmem : (a, b) ∈ deps)
    (ha : (mlookup caches a).isSome = true) (hb : mlookup caches b = none) :
    finishedEdges caches deps = Except.error CErr.nilDeref := by
  induction deps generalizing caches with
  | nil => cases hmem
  | cons hd rest ih =>
    obtain ⟨x, y⟩ := hd
    rcases List.mem_cons.mp hmem with heq | hmem'
    · cases heq
      obtain ⟨ita, hita⟩ := Option.isSome_iff_exists.mp ha
      simp only [finishedEdges]
      rw [hita, hb]
    · simp only [finishedEdges]
      cases hlx : mlookup caches x with
      | none => exact ih _ hmem' ha hb
      | some itx =>
        cases hly : mlookup caches y with
        | none => rfl
        | some ity =>
          refine ih _ hmem' ?_ ?_
          · rw [mlookup_mupdate]
            split
            · simp [ha]
            · exact ha
          · rw [mlookup_mupdate]
            split
            · simp [hb]
            · exact hb

/-- Claim C10: cacheManager.Finished silently drops every recorded edge
whose depender has no cache entry (the map and disk are untouched and the
pending list is cleared), but it checks only the depender for nil: any
recorded edge whose depender is cached while the depended-on path is not
makes AddDependent run on a nil item, the modelled panic, so the
operation is not total. -/
theorem claim_C10_finished_nil_dereference :
    (∀ st : CMState, (∀ e ∈ st.deps, mlookup st.caches e.1 = none) →
        cacheManagerFinished st = Except.ok { st with deps := [] }) ∧
    (∀ (st : CMState) (a b : String), (a, b) ∈ st.deps →
        (mlookup st.caches a).isSome = true → mlookup st.caches b = none →
        cacheManagerFinished st = Except.error CErr.nilDeref) := by
  constructor
  · intro st h
    unfold cacheManagerFinished
    rw [finishedEdges_all_dropped st.deps st.caches h]
  · intro st a b hmem ha hb
    unfold cacheManagerFinished
    rw [finishedEdges_error_of_bad_edge st.deps st.caches a b hmem ha hb]

/-- Witness for claim C10: a state whose single edge has an uncached
depender is cleanly finished, and a state whose single edge has a cached
depender but an uncached depended-on path panics. -/
theorem claim_C10_finished_nil_dereference_witness :
    cacheManagerFinished (CMState.mk [] [] [("/views/x.svelte", "/views/y.svelte")]) =
      Except.ok (CMState.mk [] [] []) ∧
    cacheManagerFinished
        (CMState.mk [("/views/a.svelte", demoItem)] [] [("/views/a.svelte", "/views/y.svelte")]) =
      Except.error CErr.nilDeref := by
  constructor
  · exact claim_C10_finished_nil_dereference.1
      (CMState.mk [] [] [("/views/x.svelte", "/views/y.svelte")]) (by decide)
  · exact claim_C10_finished_nil_dereference.2
      (CMState.mk [("/views/a.svelte", demoItem)] [] [("/views/a.svelte", "/views/y.svelte")])
      "/views/a.svelte" "/views/y.svelte" (by decide) (by decide) (by decide)

/-- Reflexivity of cascade evolution. -/
theorem stateEvolves_refl (st : CMState) : StateEvolves st st :=
  ⟨fun _ it h => ⟨it, h, rfl, rfl, rfl, rfl, id⟩, fun _ h => h, fun _ h => h⟩

/-- Transitivity of cascade evolution. -/
theorem stateEvolves_trans {a b c : CMState} (h1 : StateEvolves a b) (h2 : StateEvolves b c) :
    StateEvolves a c := by
  refine ⟨?_, ?_, ?_⟩
  · intro q it h
    obtain ⟨it1, hl1, hp1, hc1, hm1, hd1, hmk1⟩ := h1.keysSome q it h
    obtain ⟨it2, hl2, hp2, hc2, hm2, hd2, hmk2⟩ := h2.keysSome q it1 hl1
    exact ⟨it2, hl2, hp2.trans hp1, hc2.trans hc1, hm2.trans hm1, hd2.trans hd1,
      fun hm => hmk2 (hmk1 hm)⟩
  · intro q h
    exact h2.keysNone q (h1.keysNone q h)
  · intro f h
    exact h1.fsShrinks f (h2.fsShrinks f h)

/-- Disk membership after a removal: the removed path is gone, the rest is
unchanged. -/
theorem fsContains_fsRemoveAll (l : List String) (x y : String) :
    fsContains (fsRemoveAll l x) y = if y = x then false else fsContains l y := by
  induction l with
  | nil => simp [fsContains, fsRemoveAll]
  | cons hd tl ih =>
    by_cases hhx : hd = x <;> by_cases hhy : hd = y <;>
      simp_all [fsContains, fsRemoveAll]

/-- Marking an item evolves the state. -/
theorem evolves_mark (st : CMState) (p : String) : StateEvolves st (markForDeletion st p) := by
  refine ⟨?_, ?_, fun f h => h⟩
  · intro q it h
    by_cases hq : q = p
    · subst hq
      refine ⟨{ it with markedForDeletion := true }, ?_, rfl, rfl, rfl, rfl, fun _ => rfl⟩
      show mlookup (mupdate st.caches q (fun j => { j with markedForDeletion := true })) q = _
      rw [mlookup_mupdate, if_pos rfl, h]
      rfl
    · refine ⟨it, ?_, rfl, rfl, rfl, rfl, id⟩
      show mlookup (mupdate st.caches p (fun j => { j with markedForDeletion := true })) q = some it
      rw [mlookup_mupdate, if_neg hq, h]
  · intro q h
    by_cases hq : q = p
    · subst hq
      show mlookup (mupdate st.caches q (fun j => { j with markedForDeletion := true })) q = none
      rw [mlookup_mupdate, if_pos rfl, h]
      rfl
    · show mlookup (mupdate st.caches p (fun j => { j with markedForDeletion := true })) q = none
      rw [mlookup_mupdate, if_neg hq, h]

/-- Removing a file evolves the state. -/
theorem evolves_removeFile (st : CMState) (x : String) : StateEvolves st (removeFile st x) := by
  refine ⟨fun _ it h => ⟨it, h, rfl, rfl, rfl, rfl, id⟩, fun _ h => h, ?_⟩
  intro f h
  rw [removeFile] at h
  simp only [fsContains_fsRemoveAll] at h
  by_cases hf : f = x
  · simp [hf] at h
  · simpa [hf] using h

/-- A file absent from the disk stays absent along an evolution. -/
theorem fsAbsent_mono {st1 st2 : CMState} (hev : StateEvolves st1 st2) (c : String)
    (h : fsContains st1.fs c = false) : fsContains st2.fs c = false := by
  cases hc : fsContains st2.fs c
  · rfl
  · rw [hev.fsShrinks c hc] at h
    cases h

/-- The invalidation postcondition transfers back along an evolution of
the starting state. -/
theorem invalidatedAt_mono_left {st0 st1 stf : CMState} {q : String}
    (hev : StateEvolves st0 st1) (h : invalidatedAt st1 stf q) : invalidatedAt st0 stf q := by
  refine ⟨?_, h.2⟩
  intro it hit
  obtain ⟨it1, hl1, _, hc1, hm1, _, _⟩ := hev.keysSome q it hit
  have hfiles := h.1 it1 hl1
  rw [hc1, hm1] at hfiles
  exact hfiles

/-- The invalidation postcondition persists forward along an evolution of
the final state. -/
theorem invalidatedAt_mono_right {st0 st1 st2 : CMState} {q : String}
    (hev : StateEvolves st1 st2) (h : invalidatedAt st0 st1 q) : invalidatedAt st0 st2 q := by
  constructor
  · intro it hit
    obtain ⟨ha, hb⟩ := h.1 it hit
    exact ⟨fsAbsent_mono hev _ ha, fsAbsent_mono hev _ hb⟩
  · intro it2 hl2
    cases hcase : mlookup st1.caches q with
    | none =>
      rw [hev.keysNone q hcase] at hl2
      cases hl2
    | some it1 =>
      obtain ⟨it2x, hl2x, _, _, _, _, hmk⟩ := hev.keysSome q it1 hcase
      rw [hl2x] at hl2
      injection hl2 with hl2
      subst hl2
      exact hmk (h.2 it1 hcase)

/-- Recorded edges survive an evolution. -/
theorem dependsEdge_evolves {st st' : CMState} {p q : String} (hev : StateEvolves st st')
    (h : dependsEdge st.caches p q) : dependsEdge st'.caches p q := by
  obtain ⟨it, k, hl, hm⟩ := h
  obtain ⟨it', hl', _, _, _, hd, _⟩ := hev.keysSome p it hl
  refine ⟨it', k, hl', ?_⟩
  rw [hd]
  exact hm

/-- Reachability through recorded edges survives an evolution. -/
theorem dependsReach_evolves {st st' : CMState} {p q : String} (hev : StateEvolves st st')
    (h : DependsReach st.caches p q) : DependsReach st'.caches p q := by
  induction h with
  | direct he => exact DependsReach.direct (dependsEdge_evolves hev he)
  | step he _ ih => exact DependsReach.step (dependsEdge_evolves hev he) ih

/-- The dependents loop evolves the state whenever its one-item step
does. -/
theorem runDeps_evolves (f : CMState → String → Except CErr CMState)
    (hf : ∀ st q st', f st q = Except.ok st' → StateEvolves st st') :
    ∀ (l : List (String × Option String)) (st st' : CMState),
      runDeps f st l = Except.ok st' → StateEvolves st st' := by
  intro l
  induction l with
  | nil =>
    intro st st' h
    injection h with h
    subst h
    exact stateEvolves_refl st
  | cons hd rest ih =>
    intro st st' h
    obtain ⟨k, ptr⟩ := hd
    cases ptr with
    | none => simp [runDeps] at h
    | some q =>
      simp only [runDeps] at h
      cases hstep : f st q with
      | error e =>
        rw [hstep] at h
        cases h
      | ok st1 =>
        rw [hstep] at h
        exact stateEvolves_trans (hf st q st1 hstep) (ih st1 st' h)

/-- A successful one-item invalidation evolves the state. -/
theorem cacheItemInvalidate_evolves :
    ∀ (fuel : Nat) (st : CMState) (p : String) (st' : CMState),
      cacheItemInvalidate fuel st p = Except.ok st' → StateEvolves st st' := by
  intro fuel
  induction fuel with
  | zero =>
    intro st p st' h
    simp [cacheItemInvalidate] at h
  | succ f ih =>
    intro st p st' h
    cases hl : mlookup st.caches p with
    | none => simp [cacheItemInvalidate, hl] at h
    | some it =>
      simp only [cacheItemInvalidate, hl] at h
      by_cases h1 : fsContains (markForDeletion st p).fs it.cacheFilePath = false
      · rw [if_pos h1] at h
        cases h
      · rw [if_neg h1] at h
        by_cases h2 : fsContains (removeFile (markForDeletion st p) it.cacheFilePath).fs
            it.metadataFilePath = false
        · rw [if_pos h2] at h
          cases h
        · rw [if_neg h2] at h
          refine stateEvolves_trans (evolves_mark st p) (stateEvolves_trans
            (evolves_removeFile (markForDeletion st p) it.cacheFilePath)
            (stateEvolves_trans
              (evolves_removeFile (removeFile (markForDeletion st p) it.cacheFilePath)
                it.metadataFilePath)
              (runDeps_evolves (cacheItemInvalidate f) (fun a b c => ih a b c) _ _ _ h)))

/-- The dependents loop establishes the invalidation postcondition for
every pointer it follows and for everything reachable from it, whenever
its one-item step does. -/
theorem runDeps_post (f : CMState → String → Except CErr CMState)
    (hfe : ∀ st q st', f st q = Except.ok st' → StateEvolves st st')
    (hfp : ∀ st q st', f st q = Except.ok st' →
        invalidatedAt st st' q ∧ ∀ r, DependsReach st.caches q r → invalidatedAt st st' r) :
    ∀ (l : List (String × Option String)) (st st' : CMState),
      runDeps f st l = Except.ok st' →
        ∀ k q, (k, some q) ∈ l →
          invalidatedAt st st' q ∧ ∀ r, DependsReach st.caches q r → invalidatedAt st st' r := by
  intro l
  induction l with
  | nil =>
    intro st st' h k q hm
    cases hm
  | cons hd rest ih =>
    intro st st' h k q hm
    obtain ⟨k0, ptr⟩ := hd
    cases ptr with
    | none => simp [runDeps] at h
    | some q0 =>
      simp only [runDeps] at h
      cases hstep : f st q0 with
      | error e =>
        rw [hstep] at h
        cases h
      | ok st1 =>
        rw [hstep] at h
        have hev01 := hfe st q0 st1 hstep
        have hev1f := runDeps_evolves f hfe rest st1 st' h
        rcases List.mem_cons.mp hm with heq | hmem'
        · have hq : q = q0 := by
            injection heq with h1 h2
            injection h2
          subst hq
          have hpost := hfp st q st1 hstep
          exact ⟨invalidatedAt_mono_right hev1f hpost.1,
            fun r hr => invalidatedAt_mono_right hev1f (hpost.2 r hr)⟩
        · have hrec := ih st1 st' h k q hmem'
          exact ⟨invalidatedAt_mono_left hev01 hrec.1,
            fun r hr =>
              invalidatedAt_mono_left hev01 (hrec.2 r (dependsReach_evolves hev01 hr))⟩

/-- A successful one-item invalidation establishes the postcondition at
its root and at every path reachable from the root through recorded
dependent pointers. -/
theorem cacheItemInvalidate_post :
    ∀ (fuel : Nat) (st : CMState) (p : String) (st' : CMState),
      cacheItemInvalidate fuel st p = Except.ok st' →
        invalidatedAt st st' p ∧
          ∀ q, DependsReach st.caches p q → invalidatedAt st st' q := by
  intro fuel
  induction fuel with
  | zero =>
    intro st p st' h
    simp [cacheItemInvalidate] at h
  | succ f ih =>
    intro st p st' h
    cases hl : mlookup st.caches p with
    | none => simp [cacheItemInvalidate, hl] at h
    | some it =>
      simp only [cacheItemInvalidate, hl] at h
      by_cases h1 : fsContains (markForDeletion st p).fs it.cacheFilePath = false
      · rw [if_pos h1] at h
        cases h
      · rw [if_neg h1] at h
        by_cases h2 : fsContains (removeFile (markForDeletion st p) it.cacheFilePath).fs
            it.metadataFilePath = false
        · rw [if_pos h2] at h
          cases h
        · rw [if_neg h2] at h
          have hev01 := evolves_mark st p
          have hev12 := evolves_removeFile (markForDeletion st p) it.cacheFilePath
          have hev23 := evolves_removeFile
            (removeFile (markForDeletion st p) it.cacheFilePath) it.metadataFilePath
          have hev03 := stateEvolves_trans hev01 (stateEvolves_trans hev12 hev23)
          have hev3f := runDeps_evolves (cacheItemInvalidate f)
            (fun a b c => cacheItemInvalidate_evolves f a b c) it.dependents _ st' h
          have hcacheGone :
              fsContains (removeFile (removeFile (markForDeletion st p) it.cacheFilePath)
                it.metadataFilePath).fs it.cacheFilePath = false := by
            simp only [removeFile, fsContains_fsRemoveAll]
            by_cases hcm : it.cacheFilePath = it.metadataFilePath <;> simp [hcm]
          have hmetaGone :
              fsContains (removeFile (removeFile (markForDeletion st p) it.cacheFilePath)
                it.metadataFilePath).fs it.metadataFilePath = false := by
            simp [removeFile, fsContains_fsRemoveAll]
          have hmarked3 :
              mlookup (removeFile (removeFile (markForDeletion st p) it.cacheFilePath)
                it.metadataFilePath).caches p = some { it with markedForDeletion := true } := by
            simp [removeFile, markForDeletion, mlookup_mupdate, hl]
          have hrootAt : invalidatedAt st st' p := by
            constructor
            · intro it0 hit0
              rw [hl] at hit0
              injection hit0 with hit0
              subst hit0
              exact ⟨fsAbsent_mono hev3f _ hcacheGone, fsAbsent_mono hev3f _ hmetaGone⟩
            · intro itf hlf
              obtain ⟨itx, hlx, _, _, _, _, hmk⟩ :=
                hev3f.keysSome p { it with markedForDeletion := true } hmarked3
              rw [hlx] at hlf
              injection hlf with hlf
              subst hlf
              exact hmk rfl
          refine ⟨hrootAt, ?_⟩
          intro q hreach
          have hrd := runDeps_post (cacheItemInvalidate f)
            (fun a b c => cacheItemInvalidate_evolves f a b c) (fun a b c => ih a b c)
            it.dependents _ st' h
          cases hreach with
          | direct he =>
            obtain ⟨itp, k, hlp, hmem⟩ := he
            rw [hl] at hlp
            injection hlp with hlp
            subst hlp
            exact invalidatedAt_mono_left hev03 (hrd k q hmem).1
          | step he hr =>
            rename_i q0
            obtain ⟨itp, k, hlp, hmem⟩ := he
            rw [hl] at hlp
            injection hlp with hlp
            subst hlp
            exact invalidatedAt_mono_left hev03
              ((hrd k q0 hmem).2 q (dependsReach_evolves hev03 hr))

/-- Claim C5: the spec states that cacheManager.Invalidate(p) deletes the
two on-disk files of p and its in-memory entry and recursively
invalidates every recorded dependent of p, while a path with no cache
entry returns nil and changes nothing. A miss is unconditionally a no-op
returning ok; on a successful hit, p is gone from the map, both of its
files are off the disk, and every path reachable from p through recorded
dependent pointers has both of its files off the disk and carries the
deletion mark (the cascade mutates dependent items in place; the map only
drops p, as the source does). Disk errors abort with the error returned,
as the documented failure semantics state. -/
theorem claim_C5_manager_invalidate_contract (fuel : Nat) (st : CMState) (p : String) :
    (mlookup st.caches p = none → cacheManagerInvalidate fuel st p = Except.ok st) ∧
    (∀ st', cacheManagerInvalidate fuel st p = Except.ok st' →
        mlookup st'.caches p = none ∧
        (∀ it, mlookup st.caches p = some it →
            fsContains st'.fs it.cacheFilePath = false ∧
              fsContains st'.fs it.metadataFilePath = false) ∧
        (∀ q, DependsReach st.caches p q →
            (∀ it, mlookup st.caches q = some it →
                fsContains st'.fs it.cacheFilePath = false ∧
                  fsContains st'.fs it.metadataFilePath = false) ∧
            (∀ it', mlookup st'.caches q = some it' → it'.markedForDeletion = true))) := by
  constructor
  · intro hnone
    unfold cacheManagerInvalidate
    rw [hnone]
  · intro st' h
    unfold cacheManagerInvalidate at h
    cases hl : mlookup st.caches p with
    | none =>
      rw [hl] at h
      injection h with h
      subst h
      refine ⟨hl, ?_, ?_⟩
      · intro it hit
        cases hit
      · intro q hreach
        exfalso
        cases hreach with
        | direct he =>
          obtain ⟨itp, k, hlp, _⟩ := he
          rw [hl] at hlp
          cases hlp
        | step he hr =>
          obtain ⟨itp, k, hlp, _⟩ := he
          rw [hl] at hlp
          cases hlp
    | some it0 =>
      rw [hl] at h
      cases hinv : cacheItemInvalidate fuel st p with
      | error e =>
        rw [hinv] at h
        cases h
      | ok st1 =>
        rw [hinv] at h
        injection h with h
        subst h
        have hpost := cacheItemInvalidate_post fuel st p st1 hinv
        refine ⟨?_, ?_, ?_⟩
        · show mlookup (merase st1.caches p) p = none
          rw [mlookup_merase]
          simp
        · intro it hit
          injection hit with hit
          subst hit
          exact hpost.1.1 it0 hl
        · intro q hreach
          have hq := hpost.2 q hreach
          refine ⟨fun it hit => hq.1 it hit, ?_⟩
          intro it' hl'
          have hl'' : mlookup (merase st1.caches p) q = some it' := hl'
          rw [mlookup_merase] at hl''
          by_cases hqp : q = p
          · rw [if_pos hqp] at hl''
            cases hl''
          · rw [if_neg hqp] at hl''
            exact hq.2 it' hl''

/-- Witness for claim C5: a miss returns ok with the state untouched, and
invalidating the cached path a removes a from the map, deletes both of
its files, deletes the files of its recorded dependent b, and leaves b
marked for deletion. -/
theorem claim_C5_manager_invalidate_contract_witness :
    cacheManagerInvalidate 3 demoInvSt "/views/zzz.svelte" = Except.ok demoInvSt ∧
    (cacheManagerInvalidate 3 demoInvSt "/views/a.svelte" = Except.ok demoInvStAfter ∧
      mlookup demoInvStAfter.caches "/views/a.svelte" = none ∧
      fsContains demoInvStAfter.fs "/cs/ha.cache" = false ∧
      fsContains demoInvStAfter.fs "/cs/hb.cache" = false ∧
      (∀ it', mlookup demoInvStAfter.caches "/views/b.svelte" = some it' →
          it'.markedForDeletion = true)) := by
  have hrun : cacheManagerInvalidate 3 demoInvSt "/views/a.svelte" = Except.ok demoInvStAfter :=
    rfl
  have hc := (claim_C5_manager_invalidate_contract 3 demoInvSt "/views/a.svelte").2
    demoInvStAfter hrun
  have hreachB : DependsReach demoInvSt.caches "/views/a.svelte" "/views/b.svelte" :=
    DependsReach.direct ⟨demoItemA, "/views/b.svelte", rfl, by decide⟩
  refine ⟨(claim_C5_manager_invalidate_contract 3 demoInvSt "/views/zzz.svelte").1 (by decide),
    hrun, hc.1, (hc.2.1 demoItemA rfl).1, ((hc.2.2 "/views/b.svelte" hreachB).1 demoItemB rfl).1,
    (hc.2.2 "/views/b.svelte" hreachB).2⟩

/-- Filter loop written as foldl-append equals List.filter. -/
theorem foldl_filter_append {α : Type} (p : α → Bool) (l : List α) (acc : List α) :
    l.foldl (fun acc v => if p v = false then acc else acc ++ [v]) acc =
      acc ++ l.filter (fun v => p v) := by
  induction l generalizing acc with
  | nil => simp
  | cons hd tl ih =>
    cases hp : p hd with
    | false => simp [List.foldl_cons, hp, ih]
    | true => simp [List.foldl_cons, hp, ih]

/-- Claim C6: the server-side build generates its synthetic entry source
from exactly the entry-point views: the generated entry imports one
wrapped module per entry-point view, in order, and no wrapped module for
any non-entry-point view (the view list handed to the template is exactly
the entry-point filter of the supplied views, and a view enters it only
if its entry-point flag is set). -/
theorem claim_C6_ssr_entry_imports_entrypoints_only (views : List ViewE) :
    ssrPluginViewList views = views.filter (fun v => v.IsEntrypoint) ∧
    ssrEntryImports views =
      strJoinAll ((views.filter (fun v => v.IsEntrypoint)).map ssrImportLine) ∧
    (∀ v, v ∈ ssrPluginViewList views → v.IsEntrypoint = true) ∧
    (∀ v, v ∈ views → v.IsEntrypoint = true → v ∈ ssrPluginViewList views) := by
  have hlist : ssrPluginViewList views = views.filter (fun v => v.IsEntrypoint) := by
    unfold ssrPluginViewList
    have hfold := foldl_filter_append (fun v : ViewE => v.IsEntrypoint) views []
    simp only [List.nil_append] at hfold
    exact hfold
  refine ⟨hlist, ?_, ?_, ?_⟩
  · unfold ssrEntryImports ssrTemplateImports
    rw [hlist]
  · intro v hv
    rw [hlist] at hv
    exact (List.mem_filter.mp hv).2
  · intro v hv hentry
    rw [hlist]
    exact List.mem_filter.mpr ⟨hv, hentry⟩

/-- Witness for claim C6: over one entry-point view and one layout view,
the filtered list holds exactly the entry point, the rendered import
section is exactly its single import line, and the entry view is a member
of the filtered list. -/
theorem claim_C6_ssr_entry_imports_entrypoints_only_witness :
    ssrPluginViewList [demoViewEntry, demoViewLayout] = [demoViewEntry] ∧
    ssrEntryImports [demoViewEntry, demoViewLayout] =
      "\nimport __AviatorWrapped_Index from \"__AviatorWrapped_Index.svelte\"" ∧
    demoViewEntry ∈ ssrPluginViewList [demoViewEntry, demoViewLayout] := by
  have h := claim_C6_ssr_entry_imports_entrypoints_only [demoViewEntry, demoViewLayout]
  refine ⟨?_, ?_, ?_⟩
  · rw [h.1]
    decide
  · rw [h.2.1]
    rfl
  · exact h.2.2.2 demoViewEntry (by decide) (by decide)

/-- Concatenation of a cons. -/
theorem strJoinAll_cons (a : String) (l : List String) :
    strJoinAll (a :: l) = a ++ strJoinAll l := by
  cases l <;> simp [strJoinAll, strJoinSep]

/-- The accumulating string fold over a tag builder is the concatenation
of one emitted piece per element. -/
theorem strFoldAppend (g : String → String) (l : List String) (acc : String) :
    l.foldl (fun output x => output ++ g x) acc = acc ++ strJoinAll (l.map g) := by
  induction l generalizing acc with
  | nil => simp [strJoinAll, strJoinSep]
  | cons hd tl ih =>
    simp only [List.foldl_cons, List.map_cons, strJoinAll_cons, ih]
    simp [String.append_assoc]

/-- Claim C7: a render request for a path with no View fails with the
error naming the requested path and has no other effect (the function
reads state only); with nil props the serialized properties text used in
the render expression and in the props script element is exactly the
empty JSON object text, so a nil-props render is indistinguishable from
one whose props serialize to that text; and a marshal failure of non-nil
props is returned as the wrapped serialization error. -/
theorem claim_C7_render_error_paths (env : RenderEnv)
    (evalFn : String → String → Except String String)
    (parseSsr : String → Except String SsrData)
    (execTemplate : SsrData → Except String String)
    (viewPath : String) (props : Option (Except String String)) :
    (mlookup env.views viewPath = none →
        Render env evalFn parseSsr execTemplate viewPath props =
          Except.error ("view does not exist in path " ++ viewPath)) ∧
    (Render env evalFn parseSsr execTemplate viewPath none =
        Render env evalFn parseSsr execTemplate viewPath (some (Except.ok "\x7b\x7d"))) ∧
    (∀ e, mlookup env.views viewPath ≠ none → props = some (Except.error e) →
        Render env evalFn parseSsr execTemplate viewPath props =
          Except.error ("failed to json serialize props " ++ e)) := by
  refine ⟨?_, ?_, ?_⟩
  · intro h
    unfold Render
    rw [h]
  · cases hl : mlookup env.views viewPath <;> simp [Render, serializeProps, hl]
  · intro e hv hp
    subst hp
    unfold Render
    cases hl : mlookup env.views viewPath with
    | none => exact absurd hl hv
    | some view => rfl

/-- Claim C8: for a successful render, the head markup handed to the HTML
template is the component-produced head followed, in order, by one module
script tag per JS asset of the view, then the base stylesheet link
exactly when that asset exists in the static-asset map, then one
stylesheet link per CSS asset of the view, then the inline deferred props
script element carrying the serialized properties; the tag builders emit
one tag per listed asset in list order. -/
theorem claim_C8_head_markup_assembly (env : RenderEnv)
    (evalFn : String → String → Except String String)
    (parseSsr : String → Except String SsrData)
    (execTemplate : SsrData → Except String String)
    (viewPath : String) (props : Option (Except String String))
    (view : ViewR) (jsonValue out : String) (d : SsrData)
    (hview : mlookup env.views viewPath = some view)
    (hjson : serializeProps props = Except.ok jsonValue)
    (heval : evalFn "runtime_renderer" (mkRenderExpr view.WrappedUniqueName jsonValue) =
      Except.ok out)
    (hparse : parseSsr out = Except.ok d) :
    Render env evalFn parseSsr execTemplate viewPath props =
      execTemplate
        { d with
            Head := d.Head ++ "\n" ++ createJSImportTags env.staticAssetsRoute view.JSImports ++
              (if fsContains env.staticContent baseCSSStyleName then
                  createCSSImportTag env.staticAssetsRoute baseCSSStyleName
                else "") ++
              createCSSImportTags env.staticAssetsRoute view.CSSImports ++
              createPropsScriptElem jsonValue
            Lang := env.htmlLang } ∧
    createJSImportTags env.staticAssetsRoute view.JSImports =
      strJoinAll (view.JSImports.map
        (fun rawPath =>
          "<script type=\"module\" src=\"" ++ goFilepathJoin env.staticAssetsRoute rawPath ++
            "\" defer></script>\n")) ∧
    createCSSImportTags env.staticAssetsRoute view.CSSImports =
      strJoinAll (view.CSSImports.map
        (fun rawPath => createCSSImportTag env.staticAssetsRoute rawPath)) := by
  refine ⟨?_, ?_, ?_⟩
  · simp only [Render, hview, hjson, heval, hparse]
    by_cases hbase : fsContains env.staticContent baseCSSStyleName = true
    · simp only [hbase, if_true]
    · simp only [Bool.not_eq_true] at hbase
      simp only [hbase, Bool.false_eq_true, if_false]
      congr 1
      simp [String.append_empty]
  · have h := strFoldAppend
      (fun rawPath =>
        "<script type=\"module\" src=\"" ++ goFilepathJoin env.staticAssetsRoute rawPath ++
          "\" defer></script>\n")
      view.JSImports ""
    simpa [createJSImportTags] using h
  · have h := strFoldAppend (fun rawPath => createCSSImportTag env.staticAssetsRoute rawPath)
      view.CSSImports ""
    simpa [createCSSImportTags] using h

/-- Witness for claim C7: the missing-view error names the requested
path, the nil-props render equals the render with props serialized to the
empty JSON object text, and a marshal failure is returned wrapped. -/
theorem claim_C7_render_error_paths_witness :
    Render demoRenderEnv demoEvalFn demoParseSsr demoExecTemplate "missing.svelte" none =
      Except.error "view does not exist in path missing.svelte" ∧
    Render demoRenderEnv demoEvalFn demoParseSsr demoExecTemplate "Index.svelte" none =
      Render demoRenderEnv demoEvalFn demoParseSsr demoExecTemplate "Index.svelte"
        (some (Except.ok "\x7b\x7d")) ∧
    Render demoRenderEnv demoEvalFn demoParseSsr demoExecTemplate "Index.svelte"
        (some (Except.error "boom")) =
      Except.error "failed to json serialize props boom" := by
  refine ⟨?_, ?_, ?_⟩
  · exact (claim_C7_render_error_paths demoRenderEnv demoEvalFn demoParseSsr demoExecTemplate
      "missing.svelte" none).1 rfl
  · exact (claim_C7_render_error_paths demoRenderEnv demoEvalFn demoParseSsr demoExecTemplate
      "Index.svelte" none).2.1
  · exact (claim_C7_render_error_paths demoRenderEnv demoEvalFn demoParseSsr demoExecTemplate
      "Index.svelte" (some (Except.error "boom"))).2.2 "boom" (by decide) rfl

/-- Witness for claim C8: a concrete successful render produces exactly
the template execution over the head assembled in the claimed order. -/
theorem claim_C8_head_markup_assembly_witness :
    Render demoRenderEnv demoEvalFn demoParseSsr demoExecTemplate "Index.svelte" none =
      demoExecTemplate
        { demoSsr with
            Head := demoSsr.Head ++ "\n" ++ createJSImportTags "/assets" ["Index.js"] ++
              createCSSImportTag "/assets" baseCSSStyleName ++
              createCSSImportTags "/assets" ["Index.css"] ++
              createPropsScriptElem "\x7b\x7d"
            Lang := "en" } ∧
    createJSImportTags "/assets" ["Index.js"] =
      "<script type=\"module\" src=\"/assets/Index.js\" defer></script>\n" := by
  constructor
  · have h := (claim_C8_head_markup_assembly demoRenderEnv demoEvalFn demoParseSsr
      demoExecTemplate "Index.svelte" none demoViewR "\x7b\x7d"
      ("rendered:runtime_renderer:" ++ mkRenderExpr "__AviatorWrapped_Index" "\x7b\x7d")
      demoSsr rfl rfl rfl rfl).1
    exact h
  · rfl

/-- A successful broadcast evaluation installs the script into every
instance, in place. -/
theorem evalOnAll_ok (jsOk : String → Bool) (path source : String) :
    ∀ (l l' : List GojaVMState), evalOnAll jsOk path source l = Except.ok l' →
      l' = l.map (fun vm => { scripts := vm.scripts ++ [(path, source)] }) := by
  intro l
  induction l with
  | nil =>
    intro l' h
    injection h with h
    subst h
    rfl
  | cons hd tl ih =>
    intro l' h
    simp only [evalOnAll] at h
    cases hjs : jsOk source with
    | false => simp [gojaEval, hjs] at h
    | true =>
      simp only [gojaEval, hjs, if_true] at h
      cases hrest : evalOnAll jsOk path source tl with
      | error e =>
        rw [hrest] at h
        cases h
      | ok rest1 =>
        rw [hrest] at h
        injection h with h
        subst h
        simp [ih rest1 hrest]

/-- Claim C9: InitializationScript on a quiescent pool of size N acquires
all N instances before evaluating (no instance is released while the
loop runs, by construction of the acquisition loop), evaluates the
script on each of the N instances, and releases them only after every
instance has evaluated it; consequently after a successful return the
pool holds exactly N instances, every one of them has the script
installed, and an Eval dispatched to the pool is served by an instance
that observes the installed globals. -/
theorem claim_C9_pool_initialization_broadcast (jsOk : String → Bool) (pool : GojaPool)
    (path source : String) (pool' : GojaPool)
    (hquiescent : pool.idle.length ≤ pool.poolSize)
    (hrun : poolInitializationScript jsOk pool path source = Except.ok pool') :
    pool'.idle.length = pool.poolSize ∧
    (∀ vm, vm ∈ pool'.idle → (path, source) ∈ vm.scripts) ∧
    (∀ pool2 vmServing p e,
        poolEval jsOk pool' p e = Except.ok (pool2, vmServing) →
          ∃ vm, vm ∈ pool'.idle ∧ (path, source) ∈ vm.scripts ∧
            vmServing.scripts = vm.scripts ++ [(p, e)]) := by
  unfold poolInitializationScript at hrun
  cases hall : evalOnAll jsOk path source (acquireAllVMs pool) with
  | error e =>
    rw [hall] at hrun
    cases hrun
  | ok vms =>
    rw [hall] at hrun
    injection hrun with hrun
    subst hrun
    have hmap := evalOnAll_ok jsOk path source (acquireAllVMs pool) vms hall
    have hlen : vms.length = pool.poolSize := by
      rw [hmap]
      simp [acquireAllVMs]
      omega
    have hmem : ∀ vm, vm ∈ vms → (path, source) ∈ vm.scripts := by
      intro vm hvm
      rw [hmap] at hvm
      obtain ⟨w, _, hw⟩ := List.mem_map.mp hvm
      subst hw
      simp
    refine ⟨hlen, hmem, ?_⟩
    intro pool2 vmServing p e hev
    unfold poolEval at hev
    cases hidle : vms with
    | nil =>
      rw [hidle] at hev
      cases hev
    | cons vm0 rest =>
      rw [hidle] at hev
      cases hjs : jsOk e with
      | false => simp [gojaEval, hjs] at hev
      | true =>
        simp only [gojaEval, hjs, if_true] at hev
        injection hev with hev
        have hvm : vmServing = { scripts := vm0.scripts ++ [(p, e)] } := by
          have := congrArg Prod.snd hev
          simpa using this.symm
        refine ⟨vm0, ?_, ?_, ?_⟩
        · exact List.mem_cons_self vm0 rest
        · exact hmem vm0 (by rw [hidle]; exact List.mem_cons_self vm0 rest)
        · rw [hvm]

/-- Witness for claim C9: a pool of size two with one instance already
constructed; after the initialization script runs, both instances hold
the script and a subsequent Eval is served by an instance observing it. -/
theorem claim_C9_pool_initialization_broadcast_witness :
    poolInitializationScript (fun _ => true) (GojaPool.mk 2 [GojaVMState.mk []])
        "__aviator_vm_init_script" "globalThis.__svelte__ = 1" =
      Except.ok (GojaPool.mk 2
        [GojaVMState.mk [("__aviator_vm_init_script", "globalThis.__svelte__ = 1")],
         GojaVMState.mk [("__aviator_vm_init_script", "globalThis.__svelte__ = 1")]]) ∧
    (∀ vm,
        vm ∈ (GojaPool.mk 2
          [GojaVMState.mk [("__aviator_vm_init_script", "globalThis.__svelte__ = 1")],
           GojaVMState.mk [("__aviator_vm_init_script", "globalThis.__svelte__ = 1")]]).idle →
          ("__aviator_vm_init_script", "globalThis.__svelte__ = 1") ∈ vm.scripts) := by
  have hrun : poolInitializationScript (fun _ => true) (GojaPool.mk 2 [GojaVMState.mk []])
      "__aviator_vm_init_script" "globalThis.__svelte__ = 1" =
      Except.ok (GojaPool.mk 2
        [GojaVMState.mk [("__aviator_vm_init_script", "globalThis.__svelte__ = 1")],
         GojaVMState.mk [("__aviator_vm_init_script", "globalThis.__svelte__ = 1")]]) := rfl
  refine ⟨hrun, ?_⟩
  exact (claim_C9_pool_initialization_broadcast (fun _ => true)
    (GojaPool.mk 2 [GojaVMState.mk []]) "__aviator_vm_init_script"
    "globalThis.__svelte__ = 1" _ (by decide) hrun).2.1

end Aviator
